import Mathlib

/-!
Shallow embedding of the image-to-ASCII renderer of the tg_console repository
(`tg_console/image_converter.py`), together with the configuration wiring of
the message-display surface (`tg_console/ui/chat_view.py`,
`tg_console/config.py`), and proofs of the specified properties.

Modelling conventions:
* Python byte buffers are `List ℕ` (one entry per byte).
* The external decoding collaborator (`PIL.Image.open` followed by
  `convert('L')`) is a parameter `decode : List ℕ → DecodeResult`; the grayscale
  image it produces carries its dimensions, its row-major luminance data, the
  PIL invariant `data.length = width * height`, and the mode-`L` invariant that
  every sample is a byte (≤ 255).
* The external resampling collaborator (`Image.resize`) is a parameter
  `Resampler`: any function producing an image of the requested dimensions
  (the exact filter is not load-bearing); a concrete nearest-neighbour
  instance is provided for evaluation.
* Python's `try/except` is modelled by the `DecodeResult` outcomes plus
  explicit branches for the two in-body failure points (`orig_width = 0`
  raises `ZeroDivisionError` at the aspect-ratio division; `self.width = 0`
  raises `ValueError` at `range(0, len, 0)`); both are caught by the broad
  `except Exception` clause and stringified.
* Exact rational arithmetic stands in for IEEE-754 doubles; every concrete
  input used in a theorem was chosen far from a floating-point rounding
  boundary, so `int(...)` on the Python float agrees with the rational floor.
-/

/-- A decoded mode-`L` (grayscale) PIL image: dimensions, row-major pixel
data, and the PIL invariants relating them. -/
structure GrayImage where
  width : ℕ
  height : ℕ
  data : List ℕ
  size_eq : data.length = width * height
  bounded : ∀ p ∈ data, p ≤ 255

/-- Outcome of `Image.open(io.BytesIO(image_data))` followed by
`image.convert('L')`: a grayscale image, an `UnidentifiedImageError`, or any
other exception (carrying its message). -/
inductive DecodeResult where
  | ok (img : GrayImage)
  | unidentified
  | failed (msg : String)

/-- The converter object of `image_converter.py`: its only state is the
target character width set in `__init__`. -/
structure ImageToAscii where
  width : ℕ

/-- `ImageToAscii()` with the default argument `width=40`. -/
def ImageToAscii.mkDefault : ImageToAscii := ⟨40⟩

/-- ASCII characters used for different brightness levels (from dark to
light); the class constant `ASCII_CHARS` of `image_converter.py`. -/
def ASCII_CHARS : String := "@%#*+=-:. "

/-- The quantization index `int(pixel_value * (len(ASCII_CHARS) - 1) / 255)`
computed in `_pixel_to_ascii`.  For a nonnegative argument Python's `int()`
truncation is the floor, and natural division is exact here because
`255 * (len - 1)` stays far below the 2^53 precision of a double. -/
def pixelIndex (pixel_value : ℕ) : ℕ :=
  pixel_value * (ASCII_CHARS.length - 1) / 255

/-- `_pixel_to_ascii`: look the quantization index up in the ramp.  Python
raises `IndexError` past the end of the string; the lookup is modelled
totally with a default, and the in-bounds theorem below shows the default is
never consulted for byte-valued pixels. -/
def pixel_to_ascii (pixel_value : ℕ) : Char :=
  ASCII_CHARS.data.getD (pixelIndex pixel_value) ' '

/-- `new_height = int(self.width * aspect_ratio * 0.5)` where
`aspect_ratio = orig_height / orig_width`: in exact arithmetic this is
`⌊w * oh / (2 * ow)⌋`, i.e. natural division. -/
def new_height (w ow oh : ℕ) : ℕ :=
  w * oh / (2 * ow)

/-- A model of `Image.resize`: any procedure returning an image of exactly
the requested dimensions. -/
structure Resampler where
  apply : GrayImage → ℕ → ℕ → GrayImage
  width_eq : ∀ img w h, (apply img w h).width = w
  height_eq : ∀ img w h, (apply img w h).height = h

/-- One output sample of a nearest-neighbour resampling: output position
`i` (row-major in a `w × h` grid) reads the nearest source pixel. -/
def nearestSample (img : GrayImage) (w h i : ℕ) : ℕ :=
  img.data.getD ((i / w) * img.height / h * img.width + (i % w) * img.width / w) 0

theorem getD_le_255 (l : List ℕ) (hl : ∀ p ∈ l, p ≤ 255) (i : ℕ) :
    l.getD i 0 ≤ 255 := by
  induction l generalizing i with
  | nil => simp [List.getD]
  | cons a t ih =>
    cases i with
    | zero => exact hl a (List.mem_cons_self a t)
    | succ j =>
      exact ih (fun p hp => hl p (List.mem_cons_of_mem a hp)) j

/-- Concrete nearest-neighbour instance of the resampling collaborator. -/
def Resampler.nearest : Resampler where
  apply img w h :=
    { width := w
      height := h
      data := (List.range (w * h)).map (nearestSample img w h)
      size_eq := by simp
      bounded := by
        intro p hp
        rcases List.mem_map.mp hp with ⟨i, _, rfl⟩
        exact getD_le_255 img.data img.bounded _ }
  width_eq := fun _ _ _ => rfl
  height_eq := fun _ _ _ => rfl

/-- Split the flat pixel list into rows of `w` pixels, as the loop
`for i in range(0, len(pixels), self.width)` does; the first argument is
fuel bounding the number of loop steps (the list length suffices whenever
`w ≥ 1`, and the loop is only reached with `w ≠ 0`). -/
def toRowsAux : ℕ → ℕ → List ℕ → List (List ℕ)
  | 0, _, _ => []
  | _ + 1, _, [] => []
  | fuel + 1, w, p :: ps => ((p :: ps).take w) :: toRowsAux fuel w ((p :: ps).drop w)

/-- The list of pixel rows `pixels[i:i + self.width]` for
`i in range(0, len(pixels), self.width)`. -/
def toRows (w : ℕ) (pixels : List ℕ) : List (List ℕ) :=
  toRowsAux pixels.length w pixels

/-- One entry of `ascii_art`: `''.join([self._pixel_to_ascii(p) for p in row])`
for each row, over all rows. -/
def render_rows (w : ℕ) (pixels : List ℕ) : List String :=
  (toRows w pixels).map (fun row => String.mk (row.map pixel_to_ascii))

/-- `'\n'.join(ascii_art)`. -/
def joinLines : List String → String
  | [] => ""
  | [s] => s
  | s :: t :: ts => s ++ "\n" ++ joinLines (t :: ts)

/-- `ImageToAscii.convert_image_to_ascii`, with the decoding and resampling
collaborators passed as parameters.  The two explicit error branches are the
exceptions the body can raise past decoding — `ZeroDivisionError` when the
source width is 0 (at `aspect_ratio = orig_height / orig_width`) and
`ValueError` when the configured width is 0 (at `range(0, len(pixels), 0)`) —
both caught by `except Exception as e` and rendered through the f-string. -/
def ImageToAscii.convert_image_to_ascii
    (decode : List ℕ → DecodeResult) (r : Resampler)
    (self : ImageToAscii) (image_data : List ℕ) : String :=
  match decode image_data with
  | DecodeResult.unidentified => "[Image format not supported]"
  | DecodeResult.failed e => "[Error converting image: " ++ e ++ "]"
  | DecodeResult.ok image =>
    if image.width = 0 then
      "[Error converting image: division by zero]"
    else
      let resized := r.apply image self.width (new_height self.width image.width image.height)
      if self.width = 0 then
        "[Error converting image: range() arg 3 must not be zero]"
      else
        joinLines (render_rows self.width resized.data)

/-- State-passing form of `convert_image_to_ascii`: the method body reads
`self.width` but contains no assignment to `self`, to `ASCII_CHARS`, or to
any other shared name, so its state-passing translation returns the object
unchanged alongside the result. -/
def ImageToAscii.convertST
    (decode : List ℕ → DecodeResult) (r : Resampler)
    (self : ImageToAscii) (image_data : List ℕ) : String × ImageToAscii :=
  (self.convert_image_to_ascii decode r image_data, self)

/-- The persisted user configuration (`config.py`): only the
`ascii_art_width` entry matters here; `none` models a config file without
the key (before the default-merge) so that the documented fallback of
`Config.ascii_art_width` is visible. -/
structure Config where
  ascii_art_width_setting : Option ℕ

/-- The `ascii_art_width` property: `self.config.get("ascii_art_width", 40)`. -/
def Config.ascii_art_width (self : Config) : ℕ :=
  self.ascii_art_width_setting.getD 40

/-- The slice of `ChatView` relevant to rendering: the converter it builds in
`__init__`.  The real constructor takes `(telegram_handler, dialog, on_close)`
— no configuration object — and runs `self.image_converter = ImageToAscii()`. -/
structure ChatView where
  image_converter : ImageToAscii

/-- `ChatView.__init__`: the converter is built with `ImageToAscii()`, the
constructor default; no configuration value is consulted. -/
def ChatView.init : ChatView :=
  ⟨ImageToAscii.mkDefault⟩

/-- `needle` occurs contiguously inside `s`. -/
def hasSubstring (needle s : String) : Prop :=
  ∃ u v, s.data = u ++ needle.data ++ v

/-- What the spec demands of every failure result: non-empty, and containing
the recognizable text "format" or "Error". -/
def failureText (s : String) : Prop :=
  s ≠ "" ∧ (hasSubstring "format" s ∨ hasSubstring "Error" s)

theorem string_data_append (s t : String) : (s ++ t).data = s.data ++ t.data := rfl

theorem failureText_unsupported : failureText "[Image format not supported]" := by
  refine ⟨by decide, Or.inl ⟨"[Image ".data, " not supported]".data, by decide⟩⟩

theorem failureText_error (e : String) :
    failureText ("[Error converting image: " ++ e ++ "]") := by
  constructor
  · intro h
    have hd := congrArg String.data h
    rw [string_data_append, string_data_append] at hd
    have h2 : "".data = ([] : List Char) := rfl
    rw [h2] at hd
    rcases List.append_eq_nil.mp hd with ⟨hd1, _⟩
    rcases List.append_eq_nil.mp hd1 with ⟨hd2, _⟩
    exact absurd hd2 (by decide)
  · refine Or.inr ⟨"[".data, " converting image: ".data ++ e.data ++ "]".data, ?_⟩
    rw [string_data_append, string_data_append]
    have h3 : "[Error converting image: ".data
        = "[".data ++ "Error".data ++ " converting image: ".data := by decide
    rw [h3]
    simp [List.append_assoc]

theorem toRowsAux_spec (w : ℕ) (hw : 1 ≤ w) :
    ∀ (h fuel : ℕ) (ps : List ℕ), ps.length = w * h → ps.length ≤ fuel →
      (toRowsAux fuel w ps).length = h ∧ ∀ row ∈ toRowsAux fuel w ps, row.length = w := by
  intro h
  induction h with
  | zero =>
    intro fuel ps hlen _
    have hnil : ps = [] := List.eq_nil_of_length_eq_zero (by simpa using hlen)
    subst hnil
    cases fuel with
    | zero => exact ⟨rfl, by simp [toRowsAux]⟩
    | succ f => exact ⟨rfl, by simp [toRowsAux]⟩
  | succ k ih =>
    intro fuel ps hlen hfuel
    have hpos : 0 < ps.length := by
      rw [hlen]; exact Nat.mul_pos (by omega) (Nat.succ_pos k)
    cases ps with
    | nil => simp at hpos
    | cons p rest =>
      cases fuel with
      | zero => simp at hfuel
      | succ f =>
        have hw_le : w ≤ (p :: rest).length := by
          rw [hlen]
          calc w = w * 1 := (Nat.mul_one w).symm
            _ ≤ w * (k + 1) := Nat.mul_le_mul_left w (Nat.succ_le_succ (Nat.zero_le k))
        have hdroplen : ((p :: rest).drop w).length = w * k := by
          rw [List.length_drop, hlen, Nat.mul_succ]; omega
        have hfuel2 : ((p :: rest).drop w).length ≤ f := by
          rw [List.length_drop]
          have := hfuel
          simp only [List.length_cons] at this ⊢
          omega
        obtain ⟨ihlen, ihrows⟩ := ih f ((p :: rest).drop w) hdroplen hfuel2
        refine ⟨?_, ?_⟩
        · simp [toRowsAux, ihlen]
        · intro row hrow
          simp only [toRowsAux] at hrow
          rcases List.mem_cons.mp hrow with h1 | h2
          · rw [h1, List.length_take]
            exact min_eq_left hw_le
          · exact ihrows row h2

theorem toRows_spec (w : ℕ) (hw : 1 ≤ w) (h : ℕ) (ps : List ℕ)
    (hlen : ps.length = w * h) :
    (toRows w ps).length = h ∧ ∀ row ∈ toRows w ps, row.length = w :=
  toRowsAux_spec w hw h ps.length ps hlen le_rfl

theorem getD_mem_or_eq (l : List Char) (d : Char) (i : ℕ) :
    l.getD i d ∈ l ∨ l.getD i d = d := by
  induction l generalizing i with
  | nil => right; simp [List.getD]
  | cons a t ih =>
    cases i with
    | zero => left; simp [List.getD]
    | succ j =>
      have hstep : (a :: t).getD (j + 1) d = t.getD j d := by simp [List.getD]
      rcases ih j with h | h
      · left; rw [hstep]; exact List.mem_cons_of_mem a h
      · right; rw [hstep, h]

theorem pixel_to_ascii_mem (v : ℕ) : pixel_to_ascii v ∈ ASCII_CHARS.data := by
  rcases getD_mem_or_eq ASCII_CHARS.data ' ' (pixelIndex v) with h | h
  · exact h
  · unfold pixel_to_ascii
    rw [h]
    decide

theorem joinLines_data_mem (ls : List String) (ch : Char)
    (h : ch ∈ (joinLines ls).data) : ch = '\n' ∨ ∃ s ∈ ls, ch ∈ s.data := by
  induction ls with
  | nil => simp [joinLines] at h
  | cons s ss ih =>
    cases ss with
    | nil =>
      right
      exact ⟨s, List.mem_cons_self s [], by simpa [joinLines] using h⟩
    | cons t ts =>
      rw [show joinLines (s :: t :: ts) = s ++ "\n" ++ joinLines (t :: ts) from rfl] at h
      rw [string_data_append, string_data_append] at h
      rcases List.mem_append.mp h with h1 | h2
      · rcases List.mem_append.mp h1 with h3 | h4
        · exact Or.inr ⟨s, List.mem_cons_self s (t :: ts), h3⟩
        · left
          simpa using h4
      · rcases ih h2 with h5 | ⟨u, hu, hcu⟩
        · exact Or.inl h5
        · exact Or.inr ⟨u, List.mem_cons_of_mem s hu, hcu⟩

theorem new_height_eq_floor (w ow oh : ℕ) :
    new_height w ow oh = Nat.floor ((w : ℚ) * ((oh : ℚ) / (ow : ℚ)) * (1 / 2)) := by
  by_cases how : ow = 0
  · subst how
    simp [new_height]
  · have h0 : (ow : ℚ) ≠ 0 := Nat.cast_ne_zero.mpr how
    have hcast : (w : ℚ) * ((oh : ℚ) / (ow : ℚ)) * (1 / 2)
        = ((w * oh : ℕ) : ℚ) / ((2 * ow : ℕ) : ℚ) := by
      push_cast
      rw [mul_one_div, ← mul_div_assoc, div_div, mul_comm (ow : ℚ) 2]
    rw [hcast, Nat.floor_div_nat, Nat.floor_natCast]
    rfl

/-- A small concrete 2 × 2 decodable image for instantiating theorems. -/
def img2x2 : GrayImage :=
  ⟨2, 2, [0, 255, 17, 200], by decide, by decide⟩

/-- A concrete 1 × 2 decodable image. -/
def img1x2 : GrayImage :=
  ⟨1, 2, [0, 255], by decide, by decide⟩

/-- A 1000 × 1 (wide, short) decodable image: the aspect-ratio formula sends
it to height 0 at width 40. -/
def wideImage : GrayImage :=
  ⟨1000, 1, List.replicate 1000 0, by rw [List.length_replicate], by
    intro p hp
    rw [List.eq_of_mem_replicate hp]
    decide⟩

/-- C1: for every input byte buffer and every converter,
`convert_image_to_ascii` is total (never raises): an undecodable byte stream
yields "[Image format not supported]", any other decode failure yields
"[Error converting image: <reason>]", and outside the genuinely successful
path the result is a non-empty placeholder containing "format" or "Error". -/
theorem convert_never_raises (decode : List ℕ → DecodeResult) (r : Resampler)
    (c : ImageToAscii) (image_data : List ℕ) :
    (decode image_data = DecodeResult.unidentified →
      c.convert_image_to_ascii decode r image_data = "[Image format not supported]")
    ∧ (∀ e, decode image_data = DecodeResult.failed e →
      c.convert_image_to_ascii decode r image_data = "[Error converting image: " ++ e ++ "]")
    ∧ ((∃ img, decode image_data = DecodeResult.ok img ∧ img.width ≠ 0 ∧ c.width ≠ 0)
      ∨ failureText (c.convert_image_to_ascii decode r image_data)) := by
  cases hdec : decode image_data with
  | unidentified =>
    refine ⟨fun _ => ?_, fun e he => ?_, Or.inr ?_⟩
    · simp [ImageToAscii.convert_image_to_ascii, hdec]
    · cases he
    · simpa [ImageToAscii.convert_image_to_ascii, hdec] using failureText_unsupported
  | failed msg =>
    refine ⟨fun h => ?_, fun e he => ?_, Or.inr ?_⟩
    · cases h
    · injection he with h1
      subst h1
      simp [ImageToAscii.convert_image_to_ascii, hdec]
    · simpa [ImageToAscii.convert_image_to_ascii, hdec] using failureText_error msg
  | ok img =>
    refine ⟨fun h => ?_, fun e he => ?_, ?_⟩
    · cases h
    · cases he
    · by_cases h1 : img.width = 0
      · refine Or.inr ?_
        have heq : ("[Error converting image: " ++ "division by zero" ++ "]" : String)
            = "[Error converting image: division by zero]" := by decide
        simpa [ImageToAscii.convert_image_to_ascii, hdec, h1] using
          heq ▸ failureText_error "division by zero"
      · by_cases h2 : c.width = 0
        · refine Or.inr ?_
          have heq : ("[Error converting image: "
                ++ "range() arg 3 must not be zero" ++ "]" : String)
              = "[Error converting image: range() arg 3 must not be zero]" := by decide
          simpa [ImageToAscii.convert_image_to_ascii, hdec, h1, h2] using
            heq ▸ failureText_error "range() arg 3 must not be zero"
        · exact Or.inl ⟨img, rfl, h1, h2⟩

/-- Witness for C1: the empty byte buffer under a decoder that rejects it
produces exactly the unsupported-format placeholder. -/
theorem convert_never_raises_witness :
    ImageToAscii.convert_image_to_ascii (fun _ => DecodeResult.unidentified)
      Resampler.nearest (ImageToAscii.mk 40) [] = "[Image format not supported]" :=
  (convert_never_raises (fun _ => DecodeResult.unidentified) Resampler.nearest
    (ImageToAscii.mk 40) []).1 rfl

/-- C2 (evaluating the code at the failing input): on a decodable 1000 × 1
image at width 40 the computed height is 0 — there is no clamp to 1 — and
the conversion result is the empty string. -/
theorem convert_unclamped_empty :
    new_height 40 wideImage.width wideImage.height = 0
    ∧ ImageToAscii.convert_image_to_ascii (fun _ => DecodeResult.ok wideImage)
        Resampler.nearest (ImageToAscii.mk 40) [] = "" := by
  exact ⟨by decide, by decide⟩

/-- The height the spec's words prescribe: round-to-nearest of
`width * (orig_height / orig_width) * 0.5` (stated only for comparison with
the source's `new_height`). -/
def spec_round_height (w ow oh : ℕ) : ℤ :=
  round ((w : ℚ) * ((oh : ℚ) / (ow : ℚ)) * (1 / 2))

/-- C3 counterexample: for a 1000 × 995 source at width 40 the exact value is
19.9; the code truncates (`int`) to 19 while the claimed round-to-nearest
gives 20, so the claim fails as stated. -/
theorem new_height_not_round :
    (new_height 40 1000 995 : ℤ) ≠ spec_round_height 40 1000 995
    ∧ new_height 40 1000 995 = 19 ∧ spec_round_height 40 1000 995 = 20 := by
  have h19 : new_height 40 1000 995 = 19 := by decide
  have h20 : spec_round_height 40 1000 995 = 20 := by
    rw [spec_round_height]
    norm_num [round_eq]
  refine ⟨?_, h19, h20⟩
  rw [h19, h20]
  decide

/-- C3 amended: for every decodable image with nonzero source width and every
nonzero converter width, the height handed to the resampling step is
`new_height`, which equals the floor (truncation, Python `int()`) — not the
round-to-nearest — of `width * (orig_height / orig_width) * 0.5`. -/
theorem convert_height_floor (decode : List ℕ → DecodeResult) (r : Resampler)
    (c : ImageToAscii) (image_data : List ℕ) (img : GrayImage)
    (h1 : decode image_data = DecodeResult.ok img)
    (h2 : img.width ≠ 0) (h3 : c.width ≠ 0) :
    c.convert_image_to_ascii decode r image_data
      = joinLines (render_rows c.width
          (r.apply img c.width (new_height c.width img.width img.height)).data)
    ∧ new_height c.width img.width img.height
      = Nat.floor ((c.width : ℚ) * ((img.height : ℚ) / (img.width : ℚ)) * (1 / 2)) := by
  constructor
  · simp [ImageToAscii.convert_image_to_ascii, h1, h2, h3]
  · exact new_height_eq_floor c.width img.width img.height

/-- Witness for the amended C3 at a concrete decodable 2 × 2 image and
width 40. -/
theorem convert_height_floor_witness :
    ImageToAscii.convert_image_to_ascii (fun _ => DecodeResult.ok img2x2)
        Resampler.nearest (ImageToAscii.mk 40) []
      = joinLines (render_rows 40
          (Resampler.nearest.apply img2x2 40 (new_height 40 img2x2.width img2x2.height)).data)
    ∧ new_height 40 img2x2.width img2x2.height
      = Nat.floor ((40 : ℚ) * ((img2x2.height : ℚ) / (img2x2.width : ℚ)) * (1 / 2)) :=
  convert_height_floor (fun _ => DecodeResult.ok img2x2) Resampler.nearest
    (ImageToAscii.mk 40) [] img2x2 rfl (by decide) (by decide)

/-- C4: for every decodable image and width `w ≥ 1` whose resampled height is
at least 1, the successful output is the newline-join of exactly
`new_height` lines, each line newline-free and of length exactly `w`
(the resampling step always yields `w * new_height` samples, chunked
row-major in groups of `w`). -/
theorem convert_line_lengths (decode : List ℕ → DecodeResult) (r : Resampler)
    (c : ImageToAscii) (image_data : List ℕ) (img : GrayImage)
    (h1 : decode image_data = DecodeResult.ok img)
    (hw : 1 ≤ c.width) (how : img.width ≠ 0)
    (_hh : 1 ≤ new_height c.width img.width img.height) :
    ∃ lines : List String,
      c.convert_image_to_ascii decode r image_data = joinLines lines
      ∧ lines.length = new_height c.width img.width img.height
      ∧ ∀ l ∈ lines, l.length = c.width ∧ '\n' ∉ l.data := by
  have hc0 : c.width ≠ 0 := by omega
  have hlen : (r.apply img c.width (new_height c.width img.width img.height)).data.length
      = c.width * new_height c.width img.width img.height := by
    rw [(r.apply img c.width (new_height c.width img.width img.height)).size_eq,
      r.width_eq, r.height_eq]
  obtain ⟨hrows_len, hrows⟩ :=
    toRows_spec c.width hw (new_height c.width img.width img.height)
      (r.apply img c.width (new_height c.width img.width img.height)).data hlen
  refine ⟨render_rows c.width
      (r.apply img c.width (new_height c.width img.width img.height)).data, ?_, ?_, ?_⟩
  · simp [ImageToAscii.convert_image_to_ascii, h1, how, hc0]
  · simp [render_rows, hrows_len]
  · intro l hl
    rcases List.mem_map.mp (by simpa [render_rows] using hl) with ⟨row, hrow, rfl⟩
    refine ⟨?_, ?_⟩
    · show (row.map pixel_to_ascii).length = c.width
      rw [List.length_map]
      exact hrows row hrow
    · intro hmem
      rcases List.mem_map.mp hmem with ⟨v, _, hv⟩
      have hr := pixel_to_ascii_mem v
      rw [hv] at hr
      exact absurd hr (by decide)

/-- Witness for C4: the concrete 2 × 2 image at width 40 resamples to height
20 ≥ 1 and the conclusion holds there. -/
theorem convert_line_lengths_witness :
    ∃ lines : List String,
      ImageToAscii.convert_image_to_ascii (fun _ => DecodeResult.ok img2x2)
          Resampler.nearest (ImageToAscii.mk 40) [] = joinLines lines
      ∧ lines.length = new_height 40 img2x2.width img2x2.height
      ∧ ∀ l ∈ lines, l.length = 40 ∧ '\n' ∉ l.data :=
  convert_line_lengths (fun _ => DecodeResult.ok img2x2) Resampler.nearest
    (ImageToAscii.mk 40) [] img2x2 rfl (by decide) (by decide) (by decide)

/-- C5: in a successful conversion every character of the output is either a
newline separator or one of the ten ramp glyphs of `ASCII_CHARS`. -/
theorem convert_ramp_only (decode : List ℕ → DecodeResult) (r : Resampler)
    (c : ImageToAscii) (image_data : List ℕ) (img : GrayImage)
    (h1 : decode image_data = DecodeResult.ok img)
    (how : img.width ≠ 0) (hc : c.width ≠ 0) :
    ∀ ch ∈ (c.convert_image_to_ascii decode r image_data).data,
      ch = '\n' ∨ ch ∈ ASCII_CHARS.data := by
  intro ch hch
  have heq : c.convert_image_to_ascii decode r image_data
      = joinLines (render_rows c.width
          (r.apply img c.width (new_height c.width img.width img.height)).data) := by
    simp [ImageToAscii.convert_image_to_ascii, h1, how, hc]
  rw [heq] at hch
  rcases joinLines_data_mem _ ch hch with h | ⟨s, hs, hcs⟩
  · exact Or.inl h
  · rcases List.mem_map.mp (by simpa [render_rows] using hs) with ⟨row, _, rfl⟩
    rcases List.mem_map.mp hcs with ⟨v, _, rfl⟩
    exact Or.inr (pixel_to_ascii_mem v)

/-- Witness for C5: instantiated at a 1 × 2 image rendered at width 1, whose
output is the single darkest glyph. -/
theorem convert_ramp_only_witness : '@' = '\n' ∨ '@' ∈ ASCII_CHARS.data :=
  convert_ramp_only (fun _ => DecodeResult.ok img1x2) Resampler.nearest
    (ImageToAscii.mk 1) [] img1x2 rfl (by decide) (by decide) '@' (by decide)

/-- C6: for every byte-valued luminance sample the chosen glyph is the ramp
character at index `⌊v * (L - 1) / 255⌋` clamped to `[0, L - 1]` (the clamp
is inert on this range), and the bounds map to the extreme glyphs:
0 ↦ `'@'` and 255 ↦ `' '`. -/
theorem pixel_quantization :
    (∀ v : ℕ, v ≤ 255 → pixel_to_ascii v
        = ASCII_CHARS.data.getD (min (pixelIndex v) (ASCII_CHARS.length - 1)) ' ')
    ∧ pixel_to_ascii 0 = '@' ∧ pixel_to_ascii 255 = ' ' := by
  refine ⟨?_, by decide, by decide⟩
  intro v hv
  have hlen : ASCII_CHARS.length - 1 = 9 := by decide
  have hb : pixelIndex v ≤ 9 := by
    unfold pixelIndex
    rw [hlen]
    calc v * 9 / 255 ≤ 255 * 9 / 255 := Nat.div_le_div_right (Nat.mul_le_mul_right 9 hv)
      _ = 9 := by decide
  unfold pixel_to_ascii
  rw [hlen, min_eq_left hb]

/-- Witness for C6 at the concrete mid-scale sample 128. -/
theorem pixel_quantization_witness :
    pixel_to_ascii 128
      = ASCII_CHARS.data.getD (min (pixelIndex 128) (ASCII_CHARS.length - 1)) ' ' :=
  pixel_quantization.1 128 (by decide)

/-- C7: conversion is deterministic — two converters with the same width,
given byte-identical input buffers (under the same decoding and resampling
collaborators), return byte-identical strings. -/
theorem convert_deterministic (decode : List ℕ → DecodeResult) (r : Resampler)
    (c1 c2 : ImageToAscii) (d1 d2 : List ℕ)
    (hw : c1.width = c2.width) (hd : d1 = d2) :
    c1.convert_image_to_ascii decode r d1 = c2.convert_image_to_ascii decode r d2 := by
  cases c1 with
  | mk w1 =>
    cases c2 with
    | mk w2 =>
      dsimp only at hw
      subst hw
      subst hd
      rfl

/-- Witness for C7 at a concrete decoder, width, and buffer. -/
theorem convert_deterministic_witness :
    ImageToAscii.convert_image_to_ascii (fun _ => DecodeResult.ok img2x2)
        Resampler.nearest (ImageToAscii.mk 40) [7]
      = ImageToAscii.convert_image_to_ascii (fun _ => DecodeResult.ok img2x2)
        Resampler.nearest (ImageToAscii.mk 40) [7] :=
  convert_deterministic (fun _ => DecodeResult.ok img2x2) Resampler.nearest
    (ImageToAscii.mk 40) (ImageToAscii.mk 40) [7] [7] rfl rfl

/-- C8: the call has no side effects — the state-passing form returns the
converter unchanged (its `width` field intact) while producing the same
result as the pure function, and the process-wide ramp constant is the fixed
ten-glyph string. -/
theorem convert_no_side_effects (decode : List ℕ → DecodeResult) (r : Resampler)
    (c : ImageToAscii) (image_data : List ℕ) :
    (ImageToAscii.convertST decode r c image_data).2 = c
    ∧ (ImageToAscii.convertST decode r c image_data).1
        = c.convert_image_to_ascii decode r image_data
    ∧ ASCII_CHARS = "@%#*+=-:. " :=
  ⟨rfl, rfl, rfl⟩

/-- C9 counterexample: with a persisted configuration whose
`ascii_art_width` is 80, the property reports 80, but the display surface
builds its converter with the constructor default and uses width 40 — the
width is not sourced from the configuration. -/
theorem chatview_width_not_from_config :
    (Config.mk (some 80)).ascii_art_width = 80
    ∧ ChatView.init.image_converter.width = 40
    ∧ ChatView.init.image_converter.width ≠ (Config.mk (some 80)).ascii_art_width :=
  ⟨rfl, rfl, by decide⟩

/-- C9 amended: the display surface always renders at the constructor
default width 40, regardless of configuration; the configuration property
`ascii_art_width` does return the persisted setting with documented default
40, but `ChatView.__init__` never consults it. -/
theorem chatview_width_default :
    ChatView.init.image_converter.width = 40
    ∧ (Config.mk Option.none).ascii_art_width = 40
    ∧ ∀ n : ℕ, (Config.mk (some n)).ascii_art_width = n :=
  ⟨rfl, rfl, fun _ => rfl⟩

/-- C10: for every byte-valued pixel the unclamped index computed by
`_pixel_to_ascii` is in bounds for the ten-character ramp, so the lookup
never faults there; the guarantee is precondition-dependent — at 284 the
index already reaches the ramp length. -/
theorem pixelIndex_in_bounds :
    (∀ v : ℕ, v ≤ 255 → pixelIndex v < ASCII_CHARS.length)
    ∧ ¬ pixelIndex 284 < ASCII_CHARS.length := by
  constructor
  · intro v hv
    have hlen : ASCII_CHARS.length = 10 := by decide
    unfold pixelIndex
    rw [hlen]
    calc v * (10 - 1) / 255 ≤ 255 * 9 / 255 :=
          Nat.div_le_div_right (Nat.mul_le_mul_right 9 hv)
      _ < 10 := by decide
  · decide

/-- Witness for C10 at the concrete sample 200. -/
theorem pixelIndex_in_bounds_witness : pixelIndex 200 < ASCII_CHARS.length :=
  pixelIndex_in_bounds.1 200 (by decide)
